import Mathlib

/-!
# Verification of the audio capture-buffer-and-trim pipeline

This development embeds the core of the audio recorder
(src/src/lib/audio/audio-recorder.js) in Lean 4: the RMS loudness
function, the silence-trimming computation performed by stop, and the
callback-driven session state machine with its disposed flag.

Samples are modelled as real numbers (the source computes with
floating-point doubles and Math.sqrt; the exact-real embedding follows
the same formulas).  JS-specific degeneracies that cannot occur under
the claims' preconditions are noted at each definition: division by a
zero length yields NaN in JS and 0 in Lean, and Math.max over an empty
argument list yields negative infinity in JS, which has no real
counterpart.
-/

namespace AudioRec

/-- Embedding of calculateRMS.  The source folds acc + Math.pow(v, 2)
over the samples starting from 0, divides by the sample count, takes a
square root, divides by the unity constant 0.35 and takes a second
square root.  For an empty list JS produces NaN (0/0) while Lean's
conventions give 0; callers are documented never to pass an empty
sequence. -/
noncomputable def calculateRMS (samples : List ℝ) : ℝ :=
  let sum := samples.foldl (fun acc v => acc + v ^ 2) 0
  let rms := Real.sqrt (sum / samples.length)
  let unity : ℝ := 0.35
  let val := rms / unity
  Real.sqrt val

/-- Folding acc + v^2 over a list from a starting accumulator adds the
sum of the squares. -/
lemma foldl_sq_eq (l : List ℝ) :
    ∀ acc : ℝ, l.foldl (fun acc v => acc + v ^ 2) acc
      = acc + (l.map (fun v => v ^ 2)).sum := by
  induction l with
  | nil => intro acc; simp
  | cons v l ih =>
      intro acc
      simp only [List.foldl_cons, List.map_cons, List.sum_cons, ih (acc + v ^ 2)]
      ring

/-- Closed form of calculateRMS: the square root of (the root mean
square of the samples divided by 0.35). -/
lemma calculateRMS_closed_form (samples : List ℝ) :
    calculateRMS samples
      = Real.sqrt (Real.sqrt ((samples.map (fun v => v ^ 2)).sum / samples.length) / 0.35) := by
  simp only [calculateRMS, foldl_sq_eq, zero_add]

/-- On a constant sequence of nonnegative amplitude a, calculateRMS
evaluates to the square root of a / 0.35. -/
lemma calculateRMS_replicate (n : ℕ) (a : ℝ) (hn : 0 < n) (ha : 0 ≤ a) :
    calculateRMS (List.replicate n a) = Real.sqrt (a / 0.35) := by
  rw [calculateRMS_closed_form]
  have hmap : (List.replicate n a).map (fun v => v ^ 2) = List.replicate n (a ^ 2) :=
    List.map_replicate ..
  have hn' : (n : ℝ) ≠ 0 := Nat.cast_ne_zero.mpr hn.ne'
  rw [hmap, List.sum_replicate, List.length_replicate, nsmul_eq_mul,
    mul_div_cancel_left₀ _ hn', Real.sqrt_sq ha]

/-- Claim C2: for every non-empty sample sequence, calculateRMS returns
sqrt (sqrt (sum of squares / count) / 0.35), and on any uniform
sequence of nonnegative amplitude a of positive length it returns
sqrt (a / 0.35). -/
theorem calculateRMS_spec :
    (∀ samples : List ℝ, samples ≠ [] →
      calculateRMS samples
        = Real.sqrt (Real.sqrt ((samples.map (fun v => v ^ 2)).sum / samples.length) / 0.35)) ∧
    (∀ (n : ℕ) (a : ℝ), 0 < n → 0 ≤ a →
      calculateRMS (List.replicate n a) = Real.sqrt (a / 0.35)) :=
  ⟨fun samples _ => calculateRMS_closed_form samples,
   fun n a hn ha => calculateRMS_replicate n a hn ha⟩

/-- Witness for C2 at the concrete input [1, 1] (and n = 2, a = 1). -/
theorem calculateRMS_spec_witness :
    (([(1 : ℝ), 1] ≠ []) ∧
      calculateRMS [(1 : ℝ), 1]
        = Real.sqrt (Real.sqrt ((([(1 : ℝ), 1].map (fun v => v ^ 2)).sum / ([(1 : ℝ), 1].length : ℕ)) ) / 0.35)) ∧
    ((0 < 2) ∧ ((0 : ℝ) ≤ 1) ∧
      calculateRMS (List.replicate 2 (1 : ℝ)) = Real.sqrt ((1 : ℝ) / 0.35)) := by
  refine ⟨⟨by simp, ?_⟩, ⟨by norm_num, by norm_num,
    calculateRMS_spec.2 2 1 (by norm_num) (by norm_num)⟩⟩
  have h := calculateRMS_spec.1 [(1 : ℝ), 1] (by simp)
  simpa using h

/-- Embedding of Math.max applied to a spread list of chunk levels.
The source only evaluates it on the non-empty buffer list of a stopped
recording; on the empty list JS would give negative infinity, which has
no real counterpart, so the nil case carries the placeholder 0 and is
never reached under the claims' preconditions. -/
noncomputable def listMax : List ℝ → ℝ
  | [] => 0
  | x :: xs => xs.foldl max x

/-- Embedding of the indexed for-loop of stop that records the 1-based
index of the first and last chunk whose level strictly exceeds the
threshold.  The accumulator carries (firstChunkAboveThreshold,
lastChunkAboveThreshold), both null (none) initially; i is the 0-based
loop counter. -/
noncomputable def scanLoop (threshold : ℝ) :
    List ℝ → ℕ → Option ℕ × Option ℕ → Option ℕ × Option ℕ
  | [], _, acc => acc
  | l :: ls, i, acc =>
      scanLoop threshold ls (i + 1)
        (if threshold < l then (some (acc.1.getD (i + 1)), some (i + 1)) else acc)

/-- First 1-based position strictly above the threshold, counting from
loop counter i; used to characterize scanLoop. -/
noncomputable def firstAbove (threshold : ℝ) : List ℝ → ℕ → Option ℕ
  | [], _ => none
  | l :: ls, i => if threshold < l then some (i + 1) else firstAbove threshold ls (i + 1)

/-- Last 1-based position strictly above the threshold, counting from
loop counter i; used to characterize scanLoop. -/
noncomputable def lastAbove (threshold : ℝ) : List ℝ → ℕ → Option ℕ
  | [], _ => none
  | l :: ls, i =>
      match lastAbove threshold ls (i + 1) with
      | some k => some k
      | none => if threshold < l then some (i + 1) else none

/-- Keep an option unless it is none. -/
def orDefault (a : Option ℕ) (x : Option ℕ) : Option ℕ :=
  match a with
  | some f => some f
  | none => x

/-- The scan loop decomposes componentwise: the first component keeps
an already-set first index, the second is overridden by any later
match. -/
lemma scanLoop_eq (threshold : ℝ) (ls : List ℝ) :
    ∀ (i : ℕ) (a b : Option ℕ),
      scanLoop threshold ls i (a, b)
        = (orDefault a (firstAbove threshold ls i),
           orDefault (lastAbove threshold ls i) b) := by
  induction ls with
  | nil =>
      intro i a b
      cases a <;> simp [scanLoop, firstAbove, lastAbove, orDefault]
  | cons l ls ih =>
      intro i a b
      by_cases hl : threshold < l
      · rw [scanLoop, if_pos hl, ih]
        cases a <;>
          simp only [firstAbove, lastAbove, if_pos hl, orDefault, Option.getD] <;>
          cases hlast : lastAbove threshold ls (i + 1) <;> simp [orDefault]
      · rw [scanLoop, if_neg hl, ih]
        cases a <;>
          simp only [firstAbove, lastAbove, if_neg hl, orDefault] <;>
          cases hlast : lastAbove threshold ls (i + 1) <;> simp [orDefault]

/-- firstAbove misses exactly when no element strictly exceeds the
threshold. -/
lemma firstAbove_eq_none_iff (threshold : ℝ) (ls : List ℝ) :
    ∀ i : ℕ, firstAbove threshold ls i = none
      ↔ ∀ j, j < ls.length → ¬ threshold < ls.getD j 0 := by
  induction ls with
  | nil => intro i; simp [firstAbove]
  | cons l ls ih =>
      intro i
      by_cases hl : threshold < l
      · simp only [firstAbove, if_pos hl]
        constructor
        · intro h; exact absurd h (by simp)
        · intro h; exact absurd hl (by simpa using h 0 (by simp))
      · simp only [firstAbove, if_neg hl, ih (i + 1)]
        constructor
        · intro h j hj
          cases j with
          | zero => simpa using hl
          | succ j' => simpa using h j' (by simpa using hj)
        · intro h j hj
          simpa using h (j + 1) (by simpa using hj)

/-- lastAbove misses exactly when no element strictly exceeds the
threshold. -/
lemma lastAbove_eq_none_iff (threshold : ℝ) (ls : List ℝ) :
    ∀ i : ℕ, lastAbove threshold ls i = none
      ↔ ∀ j, j < ls.length → ¬ threshold < ls.getD j 0 := by
  induction ls with
  | nil => intro i; simp [lastAbove]
  | cons l ls ih =>
      intro i
      simp only [lastAbove]
      cases hlast : lastAbove threshold ls (i + 1) with
      | some k =>
          simp only []
          constructor
          · intro h; exact absurd h (by simp)
          · intro h
            have : lastAbove threshold ls (i + 1) = none := by
              rw [ih (i + 1)]
              intro j hj
              simpa using h (j + 1) (by simpa using hj)
            rw [this] at hlast; exact absurd hlast (by simp)
      | none =>
          have htail : ∀ j, j < ls.length → ¬ threshold < ls.getD j 0 :=
            (ih (i + 1)).1 hlast
          by_cases hl : threshold < l
          · simp only [if_pos hl]
            constructor
            · intro h; exact absurd h (by simp)
            · intro h; exact absurd hl (by simpa using h 0 (by simp))
          · simp only [if_neg hl]
            constructor
            · intro _ j hj
              cases j with
              | zero => simpa using hl
              | succ j' => simpa using htail j' (by simpa using hj)
            · intro _; trivial

/-- Soundness of firstAbove: a returned index is the 1-based position
(relative to the loop counter) of the first element strictly above the
threshold. -/
lemma firstAbove_sound (threshold : ℝ) (ls : List ℝ) :
    ∀ (i k : ℕ), firstAbove threshold ls i = some k →
      i + 1 ≤ k ∧ k ≤ i + ls.length ∧ threshold < ls.getD (k - i - 1) 0 ∧
        ∀ j, j < k - i - 1 → ¬ threshold < ls.getD j 0 := by
  induction ls with
  | nil => intro i k h; exact absurd h (by simp [firstAbove])
  | cons l ls ih =>
      intro i k h
      by_cases hl : threshold < l
      · rw [firstAbove, if_pos hl] at h
        have hk : k = i + 1 := by simpa using h.symm
        subst hk
        refine ⟨le_refl _, by simp, ?_, ?_⟩
        · simpa using hl
        · intro j hj; omega
      · rw [firstAbove, if_neg hl] at h
        obtain ⟨h1, h2, h3, h4⟩ := ih (i + 1) k h
        refine ⟨by omega, by simp; omega, ?_, ?_⟩
        · have hk : k - i - 1 = (k - (i + 1) - 1) + 1 := by omega
          rw [hk, List.getD_cons_succ]
          exact h3
        · intro j hj
          cases j with
          | zero => simpa using hl
          | succ j' =>
              rw [List.getD_cons_succ]
              exact h4 j' (by omega)

/-- Soundness of lastAbove: a returned index is the 1-based position
(relative to the loop counter) of the last element strictly above the
threshold. -/
lemma lastAbove_sound (threshold : ℝ) (ls : List ℝ) :
    ∀ (i k : ℕ), lastAbove threshold ls i = some k →
      i + 1 ≤ k ∧ k ≤ i + ls.length ∧ threshold < ls.getD (k - i - 1) 0 ∧
        ∀ j, k - i ≤ j → j < ls.length → ¬ threshold < ls.getD j 0 := by
  induction ls with
  | nil => intro i k h; exact absurd h (by simp [lastAbove])
  | cons l ls ih =>
      intro i k h
      rw [lastAbove] at h
      cases hlast : lastAbove threshold ls (i + 1) with
      | some k' =>
          rw [hlast] at h
          have hk : k' = k := by simpa using h
          subst hk
          obtain ⟨h1, h2, h3, h4⟩ := ih (i + 1) k' hlast
          refine ⟨by omega, by simp; omega, ?_, ?_⟩
          · have hi : k' - i - 1 = (k' - (i + 1) - 1) + 1 := by omega
            rw [hi, List.getD_cons_succ]
            exact h3
          · intro j hj1 hj2
            have hj : 1 ≤ j := by omega
            obtain ⟨j', rfl⟩ : ∃ j', j = j' + 1 := ⟨j - 1, by omega⟩
            rw [List.getD_cons_succ]
            exact h4 j' (by omega) (by simpa using hj2)
      | none =>
          rw [hlast] at h
          have htail : ∀ j, j < ls.length → ¬ threshold < ls.getD j 0 :=
            (lastAbove_eq_none_iff threshold ls (i + 1)).1 hlast
          by_cases hl : threshold < l
          · rw [if_pos hl] at h
            have hk : k = i + 1 := by simpa using h.symm
            subst hk
            refine ⟨le_refl _, by simp, by simpa using hl, ?_⟩
            intro j hj1 hj2
            obtain ⟨j', rfl⟩ : ∃ j', j = j' + 1 := ⟨j - 1, by omega⟩
            rw [List.getD_cons_succ]
            exact htail j' (by simpa using hj2)
          · rw [if_neg hl] at h
            exact absurd h (by simp)

/-- The mutable state of one AudioRecorder instance.  The nullable
object references of the source (userMediaStream, mediaStreamSource,
sourceNode, scriptProcessorNode and the installed onaudioprocess
handler, the node graph connections, and the hardware track) are
modelled by the boolean flags attached, processorHooked,
nodesConnected and trackStopped. -/
structure Session where
  bufferLength : ℕ
  sampleRate : ℝ
  recordedSamples : ℕ
  recording : Bool
  started : Bool
  buffers : List (List ℝ)
  disposed : Bool
  attached : Bool
  processorHooked : Bool
  nodesConnected : Bool
  trackStopped : Bool

/-- Embedding of the constructor: fresh session with bufferLength 1024,
no device attached, nothing recorded. -/
def initSession (sampleRate : ℝ) : Session :=
  { bufferLength := 1024
    sampleRate := sampleRate
    recordedSamples := 0
    recording := false
    started := false
    buffers := []
    disposed := false
    attached := false
    processorHooked := false
    nodesConnected := false
    trackStopped := false }

/-- The record returned by stop. -/
structure TrimResult where
  levels : List ℝ
  samples : List ℝ
  sampleRate : ℝ
  trimStart : ℝ
  trimEnd : ℝ

/-- JS coercion of the nullable index used in the trim arithmetic:
ToNumber(null) is 0, so null - 2 evaluates to -2 and null + 2 to 2. -/
def optToNum (o : Option ℕ) : ℝ :=
  match o with
  | none => 0
  | some k => k

/-- Embedding of Float32Array.prototype.set: overwrite buf from
position offset with the contents of chunk.  The source only calls it
within bounds (every chunk has length bufferLength and the target was
allocated with the exact total size); out of bounds JS would throw a
RangeError. -/
def setAt (buf : List ℝ) (offset : ℕ) (chunk : List ℝ) : List ℝ :=
  buf.take offset ++ chunk ++ buf.drop (offset + chunk.length)

/-- Embedding of the concatenation loop of stop: walk the chunk list,
copying each chunk into the flat buffer at the running offset. -/
def concatLoop : List (List ℝ) → ℕ → List ℝ → List ℝ
  | [], _, buf => buf
  | c :: cs, offset, buf => concatLoop cs (offset + c.length) (setAt buf offset c)

/-- Embedding of the flat buffer construction of stop: a zero-filled
buffer of length buffers.length * bufferLength (new Float32Array is
zero-initialized), filled by the concatenation loop starting at
offset 0. -/
def concatBuffers (buffers : List (List ℝ)) (bufferLength : ℕ) : List ℝ :=
  concatLoop buffers 0 (List.replicate (buffers.length * bufferLength) 0)

/-- Embedding of stop.  Computes per-chunk RMS levels, the silence
threshold maxRMS / 8, the 1-based first and last above-threshold
indices (null when absent), the fractional trim points with the
2-chunk margins (JS null coercing to 0 in the arithmetic), and the
concatenated sample buffer; the session state itself is not touched. -/
noncomputable def stopResult (s : Session) : TrimResult :=
  let chunkLevels := s.buffers.map calculateRMS
  let maxRMS := listMax chunkLevels
  let threshold := maxRMS / 8
  let scanned := scanLoop threshold chunkLevels 0 (none, none)
  let trimStart := max 2 (optToNum scanned.1 - 2) / (s.buffers.length : ℝ)
  let trimEnd :=
    min ((s.buffers.length : ℝ) - 2) (optToNum scanned.2 + 2) / (s.buffers.length : ℝ)
  { levels := chunkLevels
    samples := concatBuffers s.buffers s.bufferLength
    sampleRate := s.sampleRate
    trimStart := trimStart
    trimEnd := trimEnd }

/-- Test fixture: a listening session holding the given buffers, as it
stands when stop is called. -/
noncomputable def mkSession (buffers : List (List ℝ)) (bufferLength : ℕ) : Session :=
  { bufferLength := bufferLength
    sampleRate := 0
    recordedSamples := 0
    recording := true
    started := true
    buffers := buffers
    disposed := false
    attached := true
    processorHooked := true
    nodesConnected := true
    trackStopped := false }

/-- Claim C1: on a non-empty chunk sequence with at least one chunk
level strictly above threshold = maxRMS / 8, the scan of stop yields
the 1-based index f of the first such chunk and the 1-based index l of
the last such chunk, and stop returns trimStart = max 2 (f - 2)
divided by the chunk count and trimEnd = min (count - 2) (l + 2)
divided by the chunk count. -/
theorem stop_first_last_trim (s : Session)
    (hne : s.buffers ≠ [])
    (hex : ∃ j, j < (s.buffers.map calculateRMS).length ∧
        listMax (s.buffers.map calculateRMS) / 8 < (s.buffers.map calculateRMS).getD j 0) :
    ∃ f l : ℕ,
      scanLoop (listMax (s.buffers.map calculateRMS) / 8)
          (s.buffers.map calculateRMS) 0 (none, none) = (some f, some l) ∧
      (1 ≤ f ∧ f ≤ s.buffers.length ∧
        listMax (s.buffers.map calculateRMS) / 8
          < (s.buffers.map calculateRMS).getD (f - 1) 0 ∧
        ∀ j, j < f - 1 → ¬ listMax (s.buffers.map calculateRMS) / 8
          < (s.buffers.map calculateRMS).getD j 0) ∧
      (1 ≤ l ∧ l ≤ s.buffers.length ∧
        listMax (s.buffers.map calculateRMS) / 8
          < (s.buffers.map calculateRMS).getD (l - 1) 0 ∧
        ∀ j, l ≤ j → j < s.buffers.length → ¬ listMax (s.buffers.map calculateRMS) / 8
          < (s.buffers.map calculateRMS).getD j 0) ∧
      (stopResult s).trimStart = max 2 ((f : ℝ) - 2) / (s.buffers.length : ℝ) ∧
      (stopResult s).trimEnd
        = min ((s.buffers.length : ℝ) - 2) ((l : ℝ) + 2) / (s.buffers.length : ℝ) := by
  have hfirst : ¬ (firstAbove (listMax (s.buffers.map calculateRMS) / 8)
      (s.buffers.map calculateRMS) 0 = none) := by
    rw [firstAbove_eq_none_iff]
    push_neg
    obtain ⟨j, hj, hx⟩ := hex
    exact ⟨j, hj, hx⟩
  have hlast : ¬ (lastAbove (listMax (s.buffers.map calculateRMS) / 8)
      (s.buffers.map calculateRMS) 0 = none) := by
    rw [lastAbove_eq_none_iff]
    push_neg
    obtain ⟨j, hj, hx⟩ := hex
    exact ⟨j, hj, hx⟩
  obtain ⟨f, hf⟩ := Option.ne_none_iff_exists'.mp hfirst
  obtain ⟨l, hl⟩ := Option.ne_none_iff_exists'.mp hlast
  have hscan : scanLoop (listMax (s.buffers.map calculateRMS) / 8)
      (s.buffers.map calculateRMS) 0 (none, none) = (some f, some l) := by
    rw [scanLoop_eq _ _ 0 none none, hf, hl]
    rfl
  obtain ⟨hf1, hf2, hf3, hf4⟩ := firstAbove_sound _ _ 0 f hf
  obtain ⟨hl1, hl2, hl3, hl4⟩ := lastAbove_sound _ _ 0 l hl
  have hlen : (s.buffers.map calculateRMS).length = s.buffers.length :=
    List.length_map ..
  refine ⟨f, l, hscan, ⟨by omega, by omega, by simpa using hf3, ?_⟩,
    ⟨by omega, by omega, by simpa using hl3, ?_⟩, ?_, ?_⟩
  · intro j hj
    exact hf4 j (by omega)
  · intro j hj1 hj2
    exact hl4 j (by omega) (by omega)
  · simp only [stopResult, hscan]
    simp [optToNum]
  · simp only [stopResult, hscan]
    simp [optToNum]

/-- Evaluation of calculateRMS on the singleton silent chunk. -/
lemma calculateRMS_single_zero : calculateRMS [(0 : ℝ)] = 0 := by
  have h := calculateRMS_replicate 1 0 (by norm_num) le_rfl
  simpa using h

/-- Evaluation of calculateRMS on the singleton full-scale chunk. -/
lemma calculateRMS_single_one : calculateRMS [(1 : ℝ)] = Real.sqrt (1 / 0.35) := by
  have h := calculateRMS_replicate 1 1 (by norm_num) (by norm_num)
  simpa using h

/-- Witness for C1 at the concrete one-chunk session holding the
single full-scale sample 1. -/
theorem stop_first_last_trim_witness :
    ((mkSession [[(1 : ℝ)]] 1).buffers ≠ [] ∧
      (∃ j, j < ((mkSession [[(1 : ℝ)]] 1).buffers.map calculateRMS).length ∧
        listMax ((mkSession [[(1 : ℝ)]] 1).buffers.map calculateRMS) / 8
          < ((mkSession [[(1 : ℝ)]] 1).buffers.map calculateRMS).getD j 0)) ∧
    (∃ f l : ℕ,
      scanLoop (listMax ((mkSession [[(1 : ℝ)]] 1).buffers.map calculateRMS) / 8)
          ((mkSession [[(1 : ℝ)]] 1).buffers.map calculateRMS) 0 (none, none)
        = (some f, some l) ∧
      (1 ≤ f ∧ f ≤ (mkSession [[(1 : ℝ)]] 1).buffers.length ∧
        listMax ((mkSession [[(1 : ℝ)]] 1).buffers.map calculateRMS) / 8
          < ((mkSession [[(1 : ℝ)]] 1).buffers.map calculateRMS).getD (f - 1) 0 ∧
        ∀ j, j < f - 1 → ¬ listMax ((mkSession [[(1 : ℝ)]] 1).buffers.map calculateRMS) / 8
          < ((mkSession [[(1 : ℝ)]] 1).buffers.map calculateRMS).getD j 0) ∧
      (1 ≤ l ∧ l ≤ (mkSession [[(1 : ℝ)]] 1).buffers.length ∧
        listMax ((mkSession [[(1 : ℝ)]] 1).buffers.map calculateRMS) / 8
          < ((mkSession [[(1 : ℝ)]] 1).buffers.map calculateRMS).getD (l - 1) 0 ∧
        ∀ j, l ≤ j → j < (mkSession [[(1 : ℝ)]] 1).buffers.length →
          ¬ listMax ((mkSession [[(1 : ℝ)]] 1).buffers.map calculateRMS) / 8
            < ((mkSession [[(1 : ℝ)]] 1).buffers.map calculateRMS).getD j 0) ∧
      (stopResult (mkSession [[(1 : ℝ)]] 1)).trimStart
        = max 2 ((f : ℝ) - 2) / ((mkSession [[(1 : ℝ)]] 1).buffers.length : ℝ) ∧
      (stopResult (mkSession [[(1 : ℝ)]] 1)).trimEnd
        = min (((mkSession [[(1 : ℝ)]] 1).buffers.length : ℝ) - 2) ((l : ℝ) + 2)
            / ((mkSession [[(1 : ℝ)]] 1).buffers.length : ℝ)) := by
  have hx : (0 : ℝ) < Real.sqrt (1 / 0.35) := Real.sqrt_pos.mpr (by norm_num)
  have h1 : (mkSession [[(1 : ℝ)]] 1).buffers ≠ [] := by simp [mkSession]
  have h2 : ∃ j, j < ((mkSession [[(1 : ℝ)]] 1).buffers.map calculateRMS).length ∧
      listMax ((mkSession [[(1 : ℝ)]] 1).buffers.map calculateRMS) / 8
        < ((mkSession [[(1 : ℝ)]] 1).buffers.map calculateRMS).getD j 0 := by
    refine ⟨0, by simp [mkSession], ?_⟩
    have hm : (mkSession [[(1 : ℝ)]] 1).buffers.map calculateRMS
        = [Real.sqrt (1 / 0.35)] := by
      simp [mkSession, calculateRMS_single_one]
    rw [hm]
    simp only [listMax, List.foldl_nil, List.getD_cons_zero]
    linarith
  exact ⟨⟨h1, h2⟩, stop_first_last_trim _ h1 h2⟩

/-- Claim C8: trimStart below trimEnd is not an invariant of stop;
a one-chunk all-silent capture inverts the interval (trimStart 2,
trimEnd -1). -/
theorem trim_interval_can_invert :
    ∃ s : Session, s.buffers ≠ [] ∧
      (stopResult s).trimEnd < (stopResult s).trimStart := by
  refine ⟨mkSession [[(0 : ℝ)]] 1, by simp [mkSession], ?_⟩
  have hmap : (mkSession [[(0 : ℝ)]] 1).buffers.map calculateRMS = [0] := by
    simp [mkSession, calculateRMS_single_zero]
  have hscan : scanLoop (listMax [(0 : ℝ)] / 8) [(0 : ℝ)] 0 (none, none)
      = (none, none) := by
    simp [scanLoop, listMax]
  simp only [stopResult, hmap, hscan]
  simp only [mkSession, optToNum]
  norm_num

/-- Split a flat sample buffer back into consecutive blocks of length
L; inverse of the concatenation performed by stop. -/
def splitChunks (L : ℕ) (samples : List ℝ) : List (List ℝ) :=
  if h : samples.length = 0 ∨ L = 0 then []
  else samples.take L :: splitChunks L (samples.drop L)
termination_by samples.length
decreasing_by
  push_neg at h
  obtain ⟨hs, hL⟩ := h
  simp only [List.length_drop]
  omega

/-- The concatenation loop writes each chunk after the part already
written, so the zero padding is consumed exactly. -/
lemma concatLoop_eq_join (cs : List (List ℝ)) :
    ∀ pre : List ℝ,
      concatLoop cs pre.length (pre ++ List.replicate ((cs.map List.length).sum) 0)
        = pre ++ cs.flatten := by
  induction cs with
  | nil => intro pre; simp [concatLoop]
  | cons c cs ih =>
      intro pre
      rw [concatLoop]
      have hset : setAt (pre ++ List.replicate (((c :: cs).map List.length).sum) 0)
          pre.length c = (pre ++ c) ++ List.replicate ((cs.map List.length).sum) 0 := by
        rw [setAt]
        have htake : (pre ++ List.replicate (((c :: cs).map List.length).sum) 0).take
            pre.length = pre := List.take_left ..
        have hdrop : (pre ++ List.replicate (((c :: cs).map List.length).sum) 0).drop
            (pre.length + c.length) = List.replicate ((cs.map List.length).sum) 0 := by
          rw [List.drop_append c.length, List.drop_replicate]
          congr 1
          simp
        rw [htake, hdrop, List.append_assoc]
      rw [hset]
      have hlen : pre.length + c.length = (pre ++ c).length := (List.length_append ..).symm
      rw [hlen, ih (pre ++ c)]
      simp [List.flatten]

/-- When every chunk has length L the total sample count is the chunk
count times L. -/
lemma sum_lengths_of_all_eq (cs : List (List ℝ)) (L : ℕ)
    (h : ∀ c ∈ cs, c.length = L) : (cs.map List.length).sum = cs.length * L := by
  induction cs with
  | nil => simp
  | cons c cs ih =>
      simp only [List.map_cons, List.sum_cons, List.length_cons]
      rw [h c (by simp), ih (fun c' hc' => h c' (by simp [hc']))]
      ring

/-- The buffer built by stop is the in-order concatenation of the
chunks whenever every chunk has the allocated length. -/
lemma concatBuffers_eq_flatten (cs : List (List ℝ)) (L : ℕ)
    (h : ∀ c ∈ cs, c.length = L) :
    concatBuffers cs L = cs.flatten := by
  have hs := sum_lengths_of_all_eq cs L h
  have hloop := concatLoop_eq_join cs []
  simp only [List.nil_append, List.length_nil] at hloop
  rw [concatBuffers, ← hs]
  exact hloop

/-- Splitting the concatenation of blocks of positive length L back
into blocks of length L recovers the block sequence. -/
lemma splitChunks_flatten (L : ℕ) (hL : 0 < L) :
    ∀ cs : List (List ℝ), (∀ c ∈ cs, c.length = L) →
      splitChunks L cs.flatten = cs := by
  intro cs
  induction cs with
  | nil =>
      intro _
      rw [splitChunks]
      simp
  | cons c cs ih =>
      intro h
      have hc : c.length = L := h c (by simp)
      have hflat : (c :: cs).flatten = c ++ cs.flatten := by simp
      rw [hflat, splitChunks, dif_neg]
      · have htake : (c ++ cs.flatten).take L = c := by
          rw [← hc]; exact List.take_left ..
        have hdrop : (c ++ cs.flatten).drop L = cs.flatten := by
          rw [← hc]; exact List.drop_left ..
        rw [htake, hdrop, ih (fun c' hc' => h c' (by simp [hc']))]
      · intro hor
        rcases hor with h0 | h0
        · rw [List.length_append, hc] at h0; omega
        · omega

/-- Claim C3: for chunks of fixed length L (the session's
bufferLength), the samples buffer returned by stop has length
totalChunks * L, equals the in-order concatenation of the chunks, and
splitting it back into blocks of length L reproduces the original
chunk sequence. -/
theorem stop_samples_concat (s : Session) (L : ℕ) (hL : 0 < L)
    (hbl : s.bufferLength = L) (hlen : ∀ c ∈ s.buffers, c.length = L) :
    (stopResult s).samples = s.buffers.flatten ∧
    (stopResult s).samples.length = s.buffers.length * L ∧
    splitChunks L (stopResult s).samples = s.buffers := by
  have hsam : (stopResult s).samples = concatBuffers s.buffers s.bufferLength := rfl
  rw [hsam, hbl, concatBuffers_eq_flatten s.buffers L hlen]
  refine ⟨rfl, ?_, splitChunks_flatten L hL s.buffers hlen⟩
  rw [List.length_flatten, sum_lengths_of_all_eq s.buffers L hlen]

/-- Witness for C3 at two chunks of length 2. -/
theorem stop_samples_concat_witness :
    (0 < 2 ∧ (mkSession [[(1 : ℝ), 2], [3, 4]] 2).bufferLength = 2 ∧
      (∀ c ∈ (mkSession [[(1 : ℝ), 2], [3, 4]] 2).buffers, c.length = 2)) ∧
    ((stopResult (mkSession [[(1 : ℝ), 2], [3, 4]] 2)).samples
        = (mkSession [[(1 : ℝ), 2], [3, 4]] 2).buffers.flatten ∧
      (stopResult (mkSession [[(1 : ℝ), 2], [3, 4]] 2)).samples.length
        = (mkSession [[(1 : ℝ), 2], [3, 4]] 2).buffers.length * 2 ∧
      splitChunks 2 (stopResult (mkSession [[(1 : ℝ), 2], [3, 4]] 2)).samples
        = (mkSession [[(1 : ℝ), 2], [3, 4]] 2).buffers) := by
  have h1 : (0 : ℕ) < 2 := by norm_num
  have h2 : (mkSession [[(1 : ℝ), 2], [3, 4]] 2).bufferLength = 2 := rfl
  have h3 : ∀ c ∈ (mkSession [[(1 : ℝ), 2], [3, 4]] 2).buffers, c.length = 2 := by
    intro c hc
    simp [mkSession] at hc
    rcases hc with rfl | rfl <;> rfl
  exact ⟨⟨h1, h2, h3⟩, stop_samples_concat _ 2 h1 h2 h3⟩

/-- An all-silent chunk of length 4. -/
noncomputable def zeroChunk : List ℝ := List.replicate 4 0

/-- A full-scale chunk of length 4 (every sample 1.0). -/
noncomputable def oneChunk : List ℝ := List.replicate 4 1

/-- The end-to-end scenario input: 10 chunks of length 4 where chunks
4 through 6 (1-based) are full-scale and the others silent. -/
noncomputable def scenarioSession : Session :=
  mkSession [zeroChunk, zeroChunk, zeroChunk, oneChunk, oneChunk, oneChunk,
    zeroChunk, zeroChunk, zeroChunk, zeroChunk] 4

/-- RMS of the silent chunk is 0. -/
lemma calculateRMS_zeroChunk : calculateRMS zeroChunk = 0 := by
  rw [zeroChunk, calculateRMS_replicate 4 0 (by norm_num) le_rfl]
  norm_num

/-- RMS of the full-scale chunk is the square root of 1 / 0.35. -/
lemma calculateRMS_oneChunk : calculateRMS oneChunk = Real.sqrt (1 / 0.35) := by
  rw [oneChunk, calculateRMS_replicate 4 1 (by norm_num) (by norm_num)]

/-- Claim C4: on the 10-chunk scenario the scan finds first index 4 and
last index 6, and stop returns trimStart 0.2 and trimEnd 0.8. -/
theorem scenario_end_to_end :
    scanLoop (listMax (scenarioSession.buffers.map calculateRMS) / 8)
        (scenarioSession.buffers.map calculateRMS) 0 (none, none) = (some 4, some 6) ∧
    (stopResult scenarioSession).trimStart = 0.2 ∧
    (stopResult scenarioSession).trimEnd = 0.8 := by
  have hx : (0 : ℝ) < Real.sqrt (1 / 0.35) := Real.sqrt_pos.mpr (by norm_num)
  have hmap : scenarioSession.buffers.map calculateRMS
      = [0, 0, 0, Real.sqrt (1 / 0.35), Real.sqrt (1 / 0.35), Real.sqrt (1 / 0.35),
         0, 0, 0, 0] := by
    simp only [scenarioSession, mkSession, List.map_cons, List.map_nil,
      calculateRMS_zeroChunk, calculateRMS_oneChunk]
  have hbuflen : scenarioSession.buffers.length = 10 := by
    simp [scenarioSession, mkSession]
  generalize hg : Real.sqrt (1 / 0.35) = x at hmap hx
  have hmax : listMax [0, 0, 0, x, x, x, 0, 0, 0, 0] = x := by
    have h00 : max (0 : ℝ) 0 = 0 := max_self 0
    have h0x : max (0 : ℝ) x = x := max_eq_right hx.le
    have hxx : max x x = x := max_self x
    have hx0 : max x (0 : ℝ) = x := max_eq_left hx.le
    simp only [listMax, List.foldl_cons, List.foldl_nil, h00, h0x, hxx, hx0]
  have hth0 : ¬ (x / 8 < (0 : ℝ)) := not_lt.mpr (by linarith)
  have hthx : x / 8 < x := by linarith
  have hscan : scanLoop (x / 8) [0, 0, 0, x, x, x, 0, 0, 0, 0] 0 (none, none)
      = (some 4, some 6) := by
    simp [scanLoop, hth0, hthx]
  refine ⟨by rw [hmap, hmax]; exact hscan, ?_, ?_⟩
  · simp only [stopResult, hmap, hmax, hscan, hbuflen]
    simp only [optToNum]
    norm_num
  · simp only [stopResult, hmap, hmax, hscan, hbuflen]
    simp only [optToNum]
    norm_num

/-- External stimuli delivered to a session: resolution of the
asynchronous getUserMedia request (success or failure), an
onaudioprocess chunk callback, a requestAnimationFrame tick of the
loudness loop, and the three caller-initiated operations. -/
inductive Event where
  | acquireSuccess
  | acquireFailure
  | chunkArrived (chunk : List ℝ)
  | animFrame (data : List ℝ)
  | startRecordingEvt
  | stopEvt
  | disposeEvt

/-- Observable effects of handling one event: which UI callbacks fired
(onStarted, onError, onUpdate with its loudness argument), whether a
chunk was appended, whether the loudness loop rescheduled itself via
requestAnimationFrame, whether the dispose teardown statements ran,
and the TrimResult returned by stop. -/
structure Output where
  startedCb : Bool
  errorCb : Bool
  updateCb : Option ℝ
  appendedChunk : Bool
  frameRescheduled : Bool
  teardownRan : Bool
  result : Option TrimResult

/-- The silent output: nothing observable happened. -/
def quiet : Output :=
  { startedCb := false
    errorCb := false
    updateCb := none
    appendedChunk := false
    frameRescheduled := false
    teardownRan := false
    result := none }

/-- One step of the session state machine, translated clause by clause
from the source.

Success callback of getUserMedia: guarded by the disposed flag; sets
started, invokes onStarted and attaches the stream (installing the
onaudioprocess handler, connecting the node graph and scheduling the
first animation frame of the loudness loop).

Failure callback of getUserMedia: guarded by the disposed flag;
invokes onError.

onaudioprocess: runs only while the handler is installed; the handler
body appends a copy of the chunk when recording and not disposed.

Animation frame: the update closure returns at once when disposed;
otherwise it reschedules itself and invokes onUpdate with the RMS of
the analyser snapshot.

startRecording: sets the recording flag, unguarded.

stop: computes its TrimResult from the current buffers and mutates no
session state.

dispose: when started, detaches the onaudioprocess handler,
disconnects the node graph and stops the hardware track; in every case
marks the session disposed.  The source guard is the started flag,
which dispose never clears. -/
noncomputable def step (s : Session) : Event → Session × Output
  | Event.acquireSuccess =>
      if s.disposed then (s, quiet)
      else
        ({ s with
            started := true
            attached := true
            processorHooked := true
            nodesConnected := true },
         { quiet with
            startedCb := true
            frameRescheduled := true })
  | Event.acquireFailure =>
      if s.disposed then (s, quiet) else (s, { quiet with errorCb := true })
  | Event.chunkArrived chunk =>
      if s.processorHooked && (s.recording && !s.disposed) then
        ({ s with buffers := s.buffers ++ [chunk] }, { quiet with appendedChunk := true })
      else (s, quiet)
  | Event.animFrame data =>
      if s.disposed then (s, quiet)
      else
        (s, { quiet with
            frameRescheduled := true
            updateCb := some (calculateRMS data) })
  | Event.startRecordingEvt => ({ s with recording := true }, quiet)
  | Event.stopEvt => (s, { quiet with result := some (stopResult s) })
  | Event.disposeEvt =>
      if s.started then
        ({ s with
            processorHooked := false
            nodesConnected := false
            trackStopped := true
            disposed := true },
         { quiet with teardownRan := true })
      else ({ s with disposed := true }, quiet)

/-- Run a sequence of events, collecting the outputs. -/
noncomputable def run (s : Session) : List Event → Session × List Output
  | [] => (s, [])
  | e :: es =>
      let so := step s e
      let rest := run so.1 es
      (rest.1, so.2 :: rest.2)

/-- A disposed session stays disposed, keeps its buffers, and emits no
callback on any single event. -/
lemma step_disposed (s : Session) (h : s.disposed = true) (e : Event) :
    (step s e).1.disposed = true ∧ (step s e).1.buffers = s.buffers ∧
    (step s e).2.startedCb = false ∧ (step s e).2.errorCb = false ∧
    (step s e).2.updateCb = none ∧ (step s e).2.appendedChunk = false ∧
    (step s e).2.frameRescheduled = false := by
  cases e <;> cases hs : s.started <;> simp [step, h, hs, quiet]

/-- Claim C5: once disposed, no sequence of events ever appends a
chunk, and no event in the sequence invokes onStarted, onError or
onUpdate or reschedules the loudness feedback loop. -/
theorem disposed_silences_everything (s : Session) (h : s.disposed = true) :
    ∀ es : List Event,
      (run s es).1.buffers = s.buffers ∧
      ∀ o ∈ (run s es).2,
        o.startedCb = false ∧ o.errorCb = false ∧ o.updateCb = none ∧
        o.appendedChunk = false ∧ o.frameRescheduled = false := by
  intro es
  induction es generalizing s with
  | nil => exact ⟨rfl, by simp [run]⟩
  | cons e es ih =>
      obtain ⟨hd, hb, h1, h2, h3, h4, h5⟩ := step_disposed s h e
      obtain ⟨ihb, iho⟩ := ih (step s e).1 hd
      refine ⟨?_, ?_⟩
      · show (run (step s e).1 es).1.buffers = s.buffers
        rw [ihb, hb]
      · intro o ho
        simp only [run, List.mem_cons] at ho
        rcases ho with ho | ho
        · rw [ho]; exact ⟨h1, h2, h3, h4, h5⟩
        · exact iho o ho

/-- Witness for C5: a disposed session fed an acquisition success, a
chunk, an animation frame and a stop produces no callback and keeps
its buffers. -/
theorem disposed_silences_everything_witness :
    ((initSession 0).disposed = false ∧
      ((step (initSession 0) Event.disposeEvt).1.disposed = true) ∧
      ((run (step (initSession 0) Event.disposeEvt).1
          [Event.acquireSuccess, Event.chunkArrived [1], Event.animFrame [1],
           Event.stopEvt]).1.buffers
        = (step (initSession 0) Event.disposeEvt).1.buffers) ∧
      ∀ o ∈ (run (step (initSession 0) Event.disposeEvt).1
          [Event.acquireSuccess, Event.chunkArrived [1], Event.animFrame [1],
           Event.stopEvt]).2,
        o.startedCb = false ∧ o.errorCb = false ∧ o.updateCb = none ∧
        o.appendedChunk = false ∧ o.frameRescheduled = false) := by
  have hd : (step (initSession 0) Event.disposeEvt).1.disposed = true := by
    simp [step, initSession]
  have h := disposed_silences_everything (step (initSession 0) Event.disposeEvt).1 hd
    [Event.acquireSuccess, Event.chunkArrived [1], Event.animFrame [1], Event.stopEvt]
  exact ⟨by simp [initSession], hd, h.1, h.2⟩

/-- Claim C6: if dispose happens before the asynchronous acquisition
resolves, the late success callback is suppressed (no onStarted, the
started flag stays clear, no device is attached, so no transition to
the listening state) and a late failure callback is likewise
suppressed (no onError). -/
theorem dispose_suppresses_pending_acquisition (s : Session)
    (hstarted : s.started = false) (hattached : s.attached = false) :
    (step (step s Event.disposeEvt).1 Event.acquireSuccess).2.startedCb = false ∧
    (step (step s Event.disposeEvt).1 Event.acquireSuccess).1.started = false ∧
    (step (step s Event.disposeEvt).1 Event.acquireSuccess).1.attached = false ∧
    (step (step s Event.disposeEvt).1 Event.acquireFailure).2.errorCb = false := by
  have h1 : (step s Event.disposeEvt).1 = { s with disposed := true } := by
    simp [step, hstarted]
  rw [h1]
  simp [step, hstarted, hattached, quiet]

/-- Witness for C6 at a freshly constructed session whose acquisition
is still pending. -/
theorem dispose_suppresses_pending_acquisition_witness :
    ((initSession 0).started = false ∧ (initSession 0).attached = false) ∧
    ((step (step (initSession 0) Event.disposeEvt).1 Event.acquireSuccess).2.startedCb = false ∧
     (step (step (initSession 0) Event.disposeEvt).1 Event.acquireSuccess).1.started = false ∧
     (step (step (initSession 0) Event.disposeEvt).1 Event.acquireSuccess).1.attached = false ∧
     (step (step (initSession 0) Event.disposeEvt).1 Event.acquireFailure).2.errorCb = false) :=
  ⟨⟨rfl, rfl⟩, dispose_suppresses_pending_acquisition (initSession 0) rfl rfl⟩

/-- Counterexample to claim C7: stop does not prevent later appends.
On a recording, non-disposed session with an installed handler, a
chunk callback arriving after stop still appends its chunk to
buffers. -/
theorem chunk_appends_after_stop :
    (run (mkSession [] 1) [Event.stopEvt, Event.chunkArrived [1]]).1.buffers
      ≠ (mkSession [] 1).buffers := by
  simp [run, step, mkSession]

/-- Claim C7 amended: after stop returns the session state is
unchanged, so a subsequent chunk callback appends exactly when the
handler is still installed, recording is set and the session is not
disposed; stop itself never blocks appends - only dispose (or
clearing the recording flag) does. -/
theorem chunk_after_stop_appends_iff (s : Session) (c : List ℝ) :
    (run s [Event.stopEvt, Event.chunkArrived c]).1.buffers
      = if s.processorHooked && (s.recording && !s.disposed)
        then s.buffers ++ [c] else s.buffers := by
  simp only [run, step]
  split <;> simp

/-- Counterexample to claim C9: the teardown statements are guarded by
the started flag, which dispose never clears, so a second dispose call
re-runs them rather than skipping them. -/
theorem dispose_twice_reruns_teardown :
    (step (mkSession [] 1) Event.disposeEvt).2.teardownRan = true ∧
    (step (step (mkSession [] 1) Event.disposeEvt).1 Event.disposeEvt).2.teardownRan
      = true := by
  simp [step, mkSession]

/-- Claim C9 amended: a second dispose call does not fail and leaves
the session state exactly as the first call left it (the re-executed
teardown statements are no-ops at the state level: the handler is
already detached, the graph disconnected and the track stopped), but
it does re-run them whenever the session had started, since dispose
never clears the started flag. -/
theorem dispose_second_call_state_noop (s : Session) :
    (step (step s Event.disposeEvt).1 Event.disposeEvt).1 = (step s Event.disposeEvt).1 ∧
    (step (step s Event.disposeEvt).1 Event.disposeEvt).2.teardownRan = s.started := by
  cases hs : s.started <;> simp [step, hs, quiet]

/-- Claim C10: stop is read-only on the session state: every field is
returned unchanged (buffers, flags, counters, the attached device and
graph), and the freshly computed TrimResult of the current buffers is
handed to the caller. -/
theorem stop_is_read_only (s : Session) :
    (step s Event.stopEvt).1 = s ∧
    (step s Event.stopEvt).2.result = some (stopResult s) ∧
    (step s Event.stopEvt).1.buffers = s.buffers ∧
    (step s Event.stopEvt).1.recording = s.recording ∧
    (step s Event.stopEvt).1.started = s.started ∧
    (step s Event.stopEvt).1.disposed = s.disposed ∧
    (step s Event.stopEvt).1.recordedSamples = s.recordedSamples ∧
    (step s Event.stopEvt).1.bufferLength = s.bufferLength ∧
    (step s Event.stopEvt).1.attached = s.attached ∧
    (step s Event.stopEvt).1.processorHooked = s.processorHooked ∧
    (step s Event.stopEvt).1.nodesConnected = s.nodesConnected ∧
    (step s Event.stopEvt).1.trackStopped = s.trackStopped := by
  simp [step]

end AudioRec
